import Mathlib

/-
Shallow embedding of the borg-queen credential vault engine.

The embedded code is the vault engine of the repository:
  - borg-collective drone vault (package vault, the version that carries a
    metadata HMAC secret): Unlock, Lock, Items, CreateItem, DeleteItem,
    GetItem, SetItemValue, SetRecoveryRecipient, readItemValueUnsafe,
    writeItemValueUnsafe, decryptFromRestUnsafe, encryptForRestUnsafe;
  - store vault utils: readIdentity, readAllMetadataUnsafe,
    readItemMetadataUnsafe, writeItemMetadataUnsafe, copyFile;
  - store service: verifyClientCredentials;
  - the older credentials-store variant of writeItemValueUnsafe, which
    differs in its backup behaviour.

Modelling conventions.
  - Byte strings are lists of naturals, UUIDs are naturals.
  - X25519 is abstracted: an identity is a natural and its public recipient
    is computed by recipientOf; age encryption keeps the recipient list and
    the plaintext as a structured ciphertext, and decryption succeeds
    exactly when the identity of the decryptor derives one of the listed
    recipients.  AES-256-GCM wrapping of the identity file keeps the
    wrapping key and the identity, and unwrapping succeeds exactly when the
    same key is presented, which models the GCM authentication tag.
  - The hash and codec primitives that the engine treats as black boxes
    (SHA-256, HMAC-SHA256, the JSON codec for item records, the canonical
    UUID rendering) are fields of a Crypto record, so every theorem is
    proved for an arbitrary implementation of those primitives.
  - Storage paths are structured: the storage root holds the identity file,
    the recovery recipient file, one metadata file and one value file per
    item id, and timestamped backup files.  This reflects that the source
    derives every path injectively from the item id and a fixed extension.
  - Nondeterministic or failing environment steps (random identity
    generation, clock reads, file system write errors) are supplied through
    explicit environment records.
  - A Go function that can return an error is modelled with the Res type;
    the abort constructor stands for a process abort, that is a runtime
    panic or a call into log.Fatal, which calls os.Exit.
-/

abbrev Bytes : Type := List Nat

abbrev UUID : Type := Nat

abbrev Identity : Type := Nat

abbrev Recipient : Type := Nat

/-- The public half of an X25519 identity, as derived by identity.Recipient()
in the source.  The derivation is deterministic and injective, which the
abstract model renders as the identity function on the underlying natural. -/
def recipientOf (ident : Identity) : Recipient := ident

/-- Item record as in the source: id, description, checksum (hex SHA-256 of
the plaintext, or empty when no value has been stored) and modification
time (modelled as a natural, the source uses time.Time). -/
structure Item where
  id : UUID
  description : String
  checksum : String
  modifiedAt : Nat
  deriving DecidableEq

/-- The black box primitives the engine calls: hashes, the metadata MAC,
the JSON codec for item records and the canonical UUID rendering.  All
theorems below hold for every implementation of this record. -/
structure Crypto where
  sha256Str : String → Bytes
  sum : Bytes → String
  hmacSha256 : Bytes → Bytes → Bytes
  identityHmacSecret : Identity → Bytes
  jsonMarshalItem : Item → Bytes
  jsonUnmarshalItem : Bytes → Option Item
  uuidStr : UUID → String

/-- Structured storage paths under the vault root.  The source derives each
of these file names injectively from the item id: id.json, id.age,
.bak/id.ts.json, .identity and .recovery. -/
inductive VPath where
  | identity : VPath
  | recovery : VPath
  | meta : UUID → VPath
  | value : UUID → VPath
  | backup : UUID → Nat → VPath
  deriving DecidableEq

/-- File contents.  Raw bytes for MAC framed metadata files, structured
ciphertexts for the identity wrap and for age streams, and the plaintext
recipient file. -/
inductive Content where
  | identityEnc : Bytes → Identity → Content
  | age : List Recipient → Bytes → Content
  | recipientText : Recipient → Content
  | raw : Bytes → Content
  deriving DecidableEq

abbrev FS : Type := List (VPath × Content)

/-- Writing a file truncates any previous content at that path. -/
def fsWrite (fs : FS) (p : VPath) (ct : Content) : FS :=
  (p, ct) :: fs.filter (fun e => !(e.1 == p))

/-- Deleting a file removes every entry at that path. -/
def fsDelete (fs : FS) (p : VPath) : FS :=
  fs.filter (fun e => !(e.1 == p))

/-- Outcome of a Go call: a value, a returned error, or a process abort
(a runtime panic, or log.Fatal which calls os.Exit). -/
inductive Res (α : Type) where
  | ok : α → Res α
  | err : String → Res α
  | abort : String → Res α
  deriving DecidableEq

def resMap {α β : Type} (f : α → β) : Res α → Res β
  | .ok a => .ok (f a)
  | .err m => .err m
  | .abort m => .abort m

/-- In memory item table.  The source distinguishes a nil map (locked
state) from a populated map, hence the Option. -/
abbrev ItemMap : Type := List (UUID × Item)

def mapInsert (m : ItemMap) (k : UUID) (itm : Item) : ItemMap :=
  (k, itm) :: m.filter (fun e => !(e.1 == k))

/-- Reading from the item table; reading from a nil Go map yields the zero
value, so the none case is an ordinary miss. -/
def itemsLookup : Option ItemMap → UUID → Option Item
  | none, _ => none
  | some m, id => m.lookup id

/-- The drone vault state: file system plus the four guarded fields
identityKey, metadataHmacSecret, primaryRecipient, items, and the optional
recovery recipient. -/
structure Vault where
  fs : FS
  identityKey : Option Bytes
  metadataHmacSecret : Option Bytes
  primaryRecipient : Option Recipient
  recoveryRecipient : Option Recipient
  items : Option ItemMap
  deriving DecidableEq

def Vault.IsLocked (v : Vault) : Bool := v.identityKey.isNone

/-- readIdentity from utils: read the identity file and AES-256-GCM open it
with the supplied key; GCM authentication fails unless the key matches. -/
def readIdentity (fs : FS) (key : Bytes) : Res Identity :=
  match fs.lookup VPath.identity with
  | none => .err "failed to read identity file"
  | some (Content.identityEnc k ident) =>
      if k = key then .ok ident else .err "cipher: message authentication failed"
  | some _ => .err "cipher: message authentication failed"

/-- copyFile from utils: fails when the source file does not exist, or on
an injected I O error. -/
def copyFile (fs : FS) (src dest : VPath) (ioFails : Bool) : Res FS :=
  match fs.lookup src with
  | none => .err "open: no such file or directory"
  | some ct => if ioFails then .err "copy failed" else .ok (fsWrite fs dest ct)

/-- Byte layout of a metadata file: the JSON record followed by exactly the
HMAC-SHA256 of the record under the metadata secret. -/
def metadataBytes (c : Crypto) (secret : Bytes) (item : Item) : Bytes :=
  c.jsonMarshalItem item ++ c.hmacSha256 secret (c.jsonMarshalItem item)

/-- writeItemMetadataUnsafe from utils, with an injected write error. -/
def writeItemMetadataUnsafe (fs : FS) (c : Crypto) (secret : Bytes) (item : Item)
    (ioFails : Bool) : Res FS :=
  if ioFails then .err "write failed"
  else .ok (fsWrite fs (VPath.meta item.id) (Content.raw (metadataBytes c secret item)))

/-- Directory entry as produced by os.ReadDir over the storage root. -/
structure DirEntry where
  name : String
  isDir : Bool
  data : Bytes
  deriving DecidableEq

/-- Mirrors the check filepath.Ext(name) == ".json" of readAllMetadataUnsafe;
for this fixed extension it is equivalent to a suffix test. -/
def hasJsonExt (name : String) : Bool :=
  List.isSuffixOf (String.toList ".json") (String.toList name)

/-- readItemMetadataUnsafe from utils over the bytes of one file.  The
source slices metadataBytes with bound len minus 32, which is a runtime
panic whenever the file holds fewer than 32 bytes; then it checks the MAC,
unmarshals the JSON, and requires the file basename to equal id.json. -/
def readItemMetadataUnsafe (c : Crypto) (secret : Bytes) (base : String) (bs : Bytes) :
    Res Item :=
  if bs.length < 32 then .abort "runtime error: slice bounds out of range"
  else
    if c.hmacSha256 secret (bs.take (bs.length - 32)) = bs.drop (bs.length - 32) then
      match c.jsonUnmarshalItem (bs.take (bs.length - 32)) with
      | some md =>
          if base = c.uuidStr md.id ++ ".json" then .ok md
          else .err ("metadata path does not match item id: " ++ c.uuidStr md.id)
      | none => .err "invalid metadata json"
    else .err "invalid metadata: checksum mismatch"

/-- The loop body of readAllMetadataUnsafe: non directory entries with the
.json extension are read; a read error is logged and the entry is skipped;
a successful read is inserted under its item id; a panic propagates. -/
def readAllMetadataGo (c : Crypto) (secret : Bytes) : List DirEntry → ItemMap → Res ItemMap
  | [], acc => .ok acc
  | e :: rest, acc =>
      if !e.isDir && hasJsonExt e.name then
        match readItemMetadataUnsafe c secret e.name e.data with
        | .ok md => readAllMetadataGo c secret rest (mapInsert acc md.id md)
        | .err _ => readAllMetadataGo c secret rest acc
        | .abort msg => .abort msg
      else readAllMetadataGo c secret rest acc

/-- readAllMetadataUnsafe from utils over an explicit directory listing. -/
def readAllMetadataUnsafe (c : Crypto) (secret : Bytes) (dir : List DirEntry) : Res ItemMap :=
  readAllMetadataGo c secret dir []

/-- The directory entry that one stored file contributes to the listing
seen by readAllMetadataUnsafe: metadata files appear as id.json with their
raw bytes, all other files are dropped here instead of by the extension
test, which is equivalent for the structured path model. -/
def jsonEntryOf (c : Crypto) (e : VPath × Content) : Option DirEntry :=
  match e with
  | (VPath.meta pid, Content.raw bs) =>
      some { name := c.uuidStr pid ++ ".json", isDir := false, data := bs }
  | _ => none

/-- Projection of the structured file system to the directory listing that
readAllMetadataUnsafe sees. -/
def jsonEntriesFS (c : Crypto) (fs : FS) : List DirEntry :=
  fs.filterMap (jsonEntryOf c)

/-- readAllMetadataUnsafe as invoked by the vault over its storage root,
with an injected os.ReadDir error. -/
def readAllMetadataFS (c : Crypto) (secret : Bytes) (readDirFails : Bool) (fs : FS) :
    Res ItemMap :=
  if readDirFails then .err "error reading directory"
  else readAllMetadataGo c secret (jsonEntriesFS c fs) []

/-- items.Values as used by Items; a nil map yields the empty snapshot. -/
def Vault.Items (v : Vault) : List Item :=
  match v.items with
  | none => []
  | some m => m.map (fun e => e.2)

/-- encryptForRestUnsafe of the drone vault: encrypt to the primary
recipient plus the optional recovery recipient.  The error paths of the
source call log.Fatal, hence abort; with well formed recipients age
encryption of an in memory buffer cannot fail, and a nil primary recipient
is a nil dereference. -/
def Vault.encryptForRestUnsafe (v : Vault) (value : Bytes) : Res Content :=
  match v.primaryRecipient with
  | none => .abort "runtime error: invalid memory address or nil pointer dereference"
  | some primary =>
      match v.recoveryRecipient with
      | some recovery => .ok (Content.age [primary, recovery] value)
      | none => .ok (Content.age [primary] value)

/-- decryptFromRestUnsafe of the drone vault: open the identity key
enclave, re-read the wrapped identity from disk, and age decrypt.  Both
failure paths of the source call log.Fatal, which exits the process, hence
abort rather than err. -/
def Vault.decryptFromRestUnsafe (v : Vault) (data : Content) : Res Bytes :=
  match v.identityKey with
  | none => .abort "runtime error: invalid memory address or nil pointer dereference"
  | some key =>
      match readIdentity v.fs key with
      | .ok ident =>
          match data with
          | Content.age recips plain =>
              if recipientOf ident ∈ recips then .ok plain
              else .abort "error decrypting data"
          | _ => .abort "error decrypting data"
      | _ => .abort "error reading identity"

/-- Result of reading one item value: the Go pair of buffer and error,
plus an instrumentation bit recording that the freshly decrypted plaintext
buffer was destroyed before returning. -/
structure ReadValueOutcome where
  res : Res Bytes
  plainDestroyed : Bool
  deriving DecidableEq

/-- readItemValueUnsafe of the drone vault: read the value file, decrypt,
recompute the checksum; on mismatch destroy the plaintext buffer and fail. -/
def Vault.readItemValueUnsafe (v : Vault) (c : Crypto) (item : Item) : ReadValueOutcome :=
  match v.fs.lookup (VPath.value item.id) with
  | none =>
      { res := .err ("failed to read item value (" ++ c.uuidStr item.id ++ ")"),
        plainDestroyed := false }
  | some ct =>
      match v.decryptFromRestUnsafe ct with
      | .abort msg => { res := .abort msg, plainDestroyed := false }
      | .err msg => { res := .err msg, plainDestroyed := false }
      | .ok value =>
          if c.sum value = item.checksum then
            { res := .ok value, plainDestroyed := false }
          else
            { res := .err ("failed to read item value (" ++ c.uuidStr item.id
                ++ "): checksum mismatch"),
              plainDestroyed := true }

/-- Result of GetItem: the Go pair of optional buffer and error, with the
same instrumentation bit. -/
structure ReadOutcome where
  res : Res (Option Bytes)
  plainDestroyed : Bool
  deriving DecidableEq

/-- GetItem of the drone vault: reject when locked, miss when the id is not
in the table, return the nil buffer with no error when the checksum is
empty, otherwise read and verify the stored value. -/
def Vault.GetItem (v : Vault) (c : Crypto) (id : UUID) : ReadOutcome :=
  if v.IsLocked then { res := .err "vault is locked", plainDestroyed := false }
  else
    match itemsLookup v.items id with
    | none => { res := .err "item not found", plainDestroyed := false }
    | some item =>
        if item.checksum = "" then { res := .ok none, plainDestroyed := false }
        else
          { res := resMap some (v.readItemValueUnsafe c item).res,
            plainDestroyed := (v.readItemValueUnsafe c item).plainDestroyed }

/-- Environment of one value write: the clock reading and the injected
failures of the copy, the value write, the enclave open and the metadata
write. -/
structure WriteEnv where
  now : Nat
  copyFails : Bool
  writeValueFails : Bool
  openHmacFails : Bool
  writeMetaFails : Bool
  deriving DecidableEq

/-- writeItemValueUnsafe of the drone vault: encrypt, back up the previous
ciphertext only when the previous checksum is non empty, update the record,
write the value file, MAC and write the metadata file, replace the table
entry.  Assigning into a nil items map is a runtime panic. -/
def Vault.writeItemValueUnsafe (v : Vault) (c : Crypto) (env : WriteEnv) (item : Item)
    (value : Bytes) : Vault × Res Unit :=
  match v.encryptForRestUnsafe value with
  | .abort msg => (v, .abort msg)
  | .err msg => (v, .err msg)
  | .ok ageContent =>
      match
        if item.checksum = "" then Res.ok v.fs
        else copyFile v.fs (VPath.value item.id) (VPath.backup item.id env.now) env.copyFails
      with
      | .abort msg => (v, .abort msg)
      | .err _ => (v, .err "failed to create backup of previous value")
      | .ok fs1 =>
          if env.writeValueFails then ({ v with fs := fs1 }, .err "failed to write item value")
          else
            match v.metadataHmacSecret with
            | none =>
                ({ v with fs := fsWrite fs1 (VPath.value item.id) ageContent },
                  .abort "runtime error: invalid memory address or nil pointer dereference")
            | some secret =>
                if env.openHmacFails then
                  ({ v with fs := fsWrite fs1 (VPath.value item.id) ageContent },
                    .err "failed to write item value")
                else
                  match
                    writeItemMetadataUnsafe (fsWrite fs1 (VPath.value item.id) ageContent) c
                      secret
                      { item with checksum := c.sum value, modifiedAt := env.now }
                      env.writeMetaFails
                  with
                  | .abort msg =>
                      ({ v with fs := fsWrite fs1 (VPath.value item.id) ageContent }, .abort msg)
                  | .err _ =>
                      ({ v with fs := fsWrite fs1 (VPath.value item.id) ageContent },
                        .err "failed to write item metadata")
                  | .ok fs3 =>
                      match v.items with
                      | none =>
                          ({ v with fs := fs3 }, .abort "assignment to entry in nil map")
                      | some m =>
                          ({ v with
                              fs := fs3
                              items := some (mapInsert m item.id
                                { item with checksum := c.sum value, modifiedAt := env.now }) },
                            .ok ())

/-- SetItemValue of the drone vault: the empty value check precedes the
lock check. -/
def Vault.SetItemValue (v : Vault) (c : Crypto) (env : WriteEnv) (id : UUID)
    (value : Bytes) : Vault × Res Unit :=
  if value.length = 0 then (v, .err "value is empty")
  else if v.IsLocked then (v, .err "vault is locked")
  else
    match itemsLookup v.items id with
    | none => (v, .err "item not found")
    | some item => v.writeItemValueUnsafe c env item value

/-- Environment of CreateItem: the fresh UUID, the clock reading and the
injected failures of the enclave open and the metadata write. -/
structure CreateEnv where
  newId : UUID
  now : Nat
  openHmacFails : Bool
  writeMetaFails : Bool
  deriving DecidableEq

/-- CreateItem of the drone vault: allocate a UUID, write the MAC framed
metadata of the empty checksum record, register it in the table. -/
def Vault.CreateItem (v : Vault) (c : Crypto) (env : CreateEnv) (description : String) :
    Vault × Res Item :=
  if v.IsLocked then (v, .err "vault is locked")
  else
    match v.metadataHmacSecret with
    | none => (v, .abort "runtime error: invalid memory address or nil pointer dereference")
    | some secret =>
        if env.openHmacFails then (v, .err "failed to create item")
        else
          match
            writeItemMetadataUnsafe v.fs c secret
              { id := env.newId, description := description, checksum := "",
                modifiedAt := env.now }
              env.writeMetaFails
          with
          | .err _ => (v, .err "failed to create item")
          | .abort msg => (v, .abort msg)
          | .ok fs1 =>
              match v.items with
              | none => ({ v with fs := fs1 }, .abort "assignment to entry in nil map")
              | some m =>
                  ({ v with
                      fs := fs1
                      items := some (mapInsert m env.newId
                        { id := env.newId, description := description, checksum := "",
                          modifiedAt := env.now }) },
                    .ok { id := env.newId, description := description, checksum := "",
                          modifiedAt := env.now })

/-- deleteItemUnsafe of the drone vault: drop the table entry and remove
both files; removal errors are only logged in the source and do not change
the returned result, so the model lets the removals succeed. -/
def Vault.deleteItemUnsafe (v : Vault) (id : UUID) : Vault × Bool :=
  match itemsLookup v.items id with
  | none => (v, false)
  | some item =>
      ({ v with
          items := match v.items with
            | none => none
            | some m => some (m.filter (fun e => !(e.1 == id)))
          fs := fsDelete (fsDelete v.fs (VPath.meta item.id)) (VPath.value item.id) },
        true)

/-- DeleteItem of the drone vault: deleting a missing item only logs. -/
def Vault.DeleteItem (v : Vault) (id : UUID) : Vault × Res Unit :=
  if v.IsLocked then (v, .err "vault is locked")
  else ((v.deleteItemUnsafe id).1, .ok ())

/-- Lock of the drone vault: clears all four guarded fields. -/
def Vault.Lock (v : Vault) : Vault × Res Unit :=
  if v.IsLocked then (v, .err "vault is locked")
  else
    ({ v with
        identityKey := none
        metadataHmacSecret := none
        primaryRecipient := none
        items := none },
      .ok ())

/-- Environment of Unlock: the stat outcome of the identity file, the
freshly generated identity, and the injected failures of the generator, the
identity write, the enclave open and the directory read. -/
structure UnlockEnv where
  statFails : Bool
  genIdentity : Identity
  genFails : Bool
  writeIdentityFails : Bool
  openHmacFails : Bool
  readDirFails : Bool
  deriving DecidableEq

/-- The tail of Unlock shared by both identity branches: open the metadata
HMAC secret enclave and load the metadata table.  On each failure the
source resets the guarded fields before returning the opaque passphrase
error. -/
def unlockFinish (v : Vault) (c : Crypto) (env : UnlockEnv) : Vault × Res Unit :=
  match v.metadataHmacSecret with
  | none => (v, .abort "runtime error: invalid memory address or nil pointer dereference")
  | some secret =>
      if env.openHmacFails then
        ({ v with identityKey := none, metadataHmacSecret := none, primaryRecipient := none },
          .err "failed to verify passphrase")
      else
        match readAllMetadataFS c secret env.readDirFails v.fs with
        | .abort msg => (v, .abort msg)
        | .err _ =>
            ({ v with
                identityKey := none
                metadataHmacSecret := none
                primaryRecipient := none
                items := none },
              .err "failed to verify passphrase")
        | .ok m => ({ v with items := some m }, .ok ())

/-- Unlock of the drone vault.  Already unlocked is an idempotent success.
Otherwise the passphrase is hashed into the identity key enclave; if the
identity file exists it is unwrapped with that key, else a fresh identity
is generated and written.  The branch where writing the fresh identity
fails returns the passphrase error without resetting the identity key,
exactly as the source does. -/
def Vault.Unlock (v : Vault) (c : Crypto) (env : UnlockEnv) (passphrase : String) :
    Vault × Res Unit :=
  if !v.IsLocked then (v, .ok ())
  else
    if env.statFails then
      ({ v with identityKey := none }, .err "failed to verify passphrase")
    else
      match v.fs.lookup VPath.identity with
      | some _ =>
          match readIdentity v.fs (c.sha256Str passphrase) with
          | .ok ident =>
              unlockFinish
                { v with
                    identityKey := some (c.sha256Str passphrase)
                    metadataHmacSecret := some (c.identityHmacSecret ident)
                    primaryRecipient := some (recipientOf ident) }
                c env
          | _ => ({ v with identityKey := none }, .err "failed to verify passphrase")
      | none =>
          if env.genFails then
            ({ v with identityKey := none }, .err "failed to verify passphrase")
          else if env.writeIdentityFails then
            ({ v with identityKey := some (c.sha256Str passphrase) },
              .err "failed to verify passphrase")
          else
            unlockFinish
              { v with
                  identityKey := some (c.sha256Str passphrase)
                  fs := fsWrite v.fs VPath.identity
                    (Content.identityEnc (c.sha256Str passphrase) env.genIdentity)
                  metadataHmacSecret := some (c.identityHmacSecret env.genIdentity)
                  primaryRecipient := some (recipientOf env.genIdentity) }
              c env

/-- Environment of SetRecoveryRecipient: the injected failures of the
enclave open, the recipient write, the three restore attempts, the
directory re-read, and one write environment per re-encrypted item. -/
structure RecoveryEnv where
  openHmacFails : Bool
  writeNewFails : Bool
  restore1 : Bool
  restore2 : Bool
  restore3 : Bool
  readDirFails : Bool
  perItem : UUID → WriteEnv

/-- The bulk re-encryption loop of SetRecoveryRecipient: read each item
value and write it back under the current recipient set; per item read or
write errors are logged and the loop continues; a panic or log.Fatal
propagates. -/
def reencryptItems (c : Crypto) (perItem : UUID → WriteEnv) :
    Vault → ItemMap → Vault × Res Unit
  | v, [] => (v, .ok ())
  | v, (_, item) :: rest =>
      match (v.readItemValueUnsafe c item).res with
      | .abort msg => (v, .abort msg)
      | .err _ => reencryptItems c perItem v rest
      | .ok value =>
          match v.writeItemValueUnsafe c (perItem item.id) item value with
          | (v1, .abort msg) => (v1, .abort msg)
          | (v1, _) => reencryptItems c perItem v1 rest

/-- SetRecoveryRecipient of the drone vault.  Writing the new recipient
file may fail; when a previous recipient exists the source then retries
writing the previous recipient up to three times, one second apart, and
calls log.Fatal when all retries fail.  On a successful write the in
memory recipient is replaced, the metadata set is re-read, and every item
is re-encrypted with per item failures skipped. -/
def Vault.SetRecoveryRecipient (v : Vault) (c : Crypto) (env : RecoveryEnv)
    (recipient : Recipient) : Vault × Res Unit :=
  if v.IsLocked then (v, .err "vault is locked")
  else
    match v.metadataHmacSecret with
    | none => (v, .abort "runtime error: invalid memory address or nil pointer dereference")
    | some secret =>
        if env.openHmacFails then (v, .err "failed to set recovery recipient")
        else if env.writeNewFails then
          match v.recoveryRecipient with
          | some prev =>
              if env.restore1 || env.restore2 || env.restore3 then
                ({ v with fs := fsWrite v.fs VPath.recovery (Content.recipientText prev) },
                  .err "failed to set recovery recipient")
              else (v, .abort "failed to restore previous recovery recipient")
          | none => (v, .err "failed to set recovery recipient")
        else
          match
            readAllMetadataFS c secret env.readDirFails
              (fsWrite v.fs VPath.recovery (Content.recipientText recipient))
          with
          | .abort msg =>
              ({ v with
                  fs := fsWrite v.fs VPath.recovery (Content.recipientText recipient)
                  recoveryRecipient := some recipient },
                .abort msg)
          | .err _ =>
              ({ v with
                  fs := fsWrite v.fs VPath.recovery (Content.recipientText recipient)
                  recoveryRecipient := some recipient },
                .err "failed to set recovery recipient")
          | .ok m =>
              reencryptItems c env.perItem
                { v with
                    fs := fsWrite v.fs VPath.recovery (Content.recipientText recipient)
                    recoveryRecipient := some recipient }
                m

/-- writeItemValueUnsafe of the credentials store vault.  This older
variant updates the record first and then attempts the backup copy
unconditionally, even on the first write of an item, when no previous
value file exists.  Its metadata writer takes no MAC key; that writer is
not under src, so its output is modelled from the spec as the marshalled
record, which the failing path below never reaches. -/
def CredVault.writeItemValueUnsafe (v : Vault) (c : Crypto) (env : WriteEnv) (item : Item)
    (value : Bytes) : Vault × Res Unit :=
  match v.encryptForRestUnsafe value with
  | .abort msg => (v, .abort msg)
  | .err msg => (v, .err msg)
  | .ok ageContent =>
      match copyFile v.fs (VPath.value item.id) (VPath.backup item.id env.now) env.copyFails with
      | .abort msg => (v, .abort msg)
      | .err _ => (v, .err "failed to create backup of previous value")
      | .ok fs1 =>
          if env.writeValueFails then ({ v with fs := fs1 }, .err "failed to write item value")
          else
            if env.writeMetaFails then
              ({ v with fs := fsWrite fs1 (VPath.value item.id) ageContent },
                .err "failed to write item metadata")
            else
              let item1 : Item := { item with checksum := c.sum value, modifiedAt := env.now }
              let fs3 : FS :=
                fsWrite (fsWrite fs1 (VPath.value item.id) ageContent) (VPath.meta item.id)
                  (Content.raw (c.jsonMarshalItem item1))
              match v.items with
              | none => ({ v with fs := fs3 }, .abort "assignment to entry in nil map")
              | some m =>
                  ({ v with
                      fs := fs3
                      items := some (mapInsert m item.id item1) },
                    .ok ())

/-- Client credentials carried by a verification request. -/
structure ClientCredentials where
  id : String
  secret : Bytes
  deriving DecidableEq

/-- verifyClientCredentials of the store service: parse the id as a UUID,
fetch the item through GetItem, compare the secret against the stored
token.  Every error path returns the same opaque message.  When GetItem
returns the nil buffer without an error, the deferred Destroy dereferences
a nil pointer, which is a panic. -/
def verifyClientCredentials (v : Vault) (c : Crypto) (uuidParse : String → Option UUID)
    (cred : ClientCredentials) : Res Unit :=
  match uuidParse cred.id with
  | none => .err "client credentials mismatch"
  | some itemId =>
      match (v.GetItem c itemId).res with
      | .err _ => .err "client credentials mismatch"
      | .abort msg => .abort msg
      | .ok none => .abort "runtime error: invalid memory address or nil pointer dereference"
      | .ok (some token) =>
          if cred.secret = token then .ok () else .err "client credentials mismatch"

/-- One file in the store decrypts under the identity: it is an age stream
listing the recipient derived from that identity. -/
def ValuesDecryptable (fs : FS) (ident : Identity) : Prop :=
  ∀ id ct, fs.lookup (VPath.value id) = some ct →
    ∃ recips plain, ct = Content.age recips plain ∧ recipientOf ident ∈ recips

/-- Coherence of an unlocked vault around a wrapped identity: the key
enclave holds the wrapping key of the identity file, the primary recipient
is derived from the wrapped identity, and the secret enclave and the item
table are populated. -/
def ReencCoh (v : Vault) (key : Bytes) (ident : Identity) : Prop :=
  v.identityKey = some key ∧
  v.fs.lookup VPath.identity = some (Content.identityEnc key ident) ∧
  v.primaryRecipient = some (recipientOf ident) ∧
  v.metadataHmacSecret.isSome = true ∧
  v.items.isSome = true

/-- One directory entry passes every acceptance check of
readItemMetadataUnsafe: a regular file with the .json extension, at least
32 bytes, a verifying trailing MAC, a parsable record, and a basename equal
to the rendered item id plus .json. -/
def EntryAccepted (c : Crypto) (secret : Bytes) (e : DirEntry) (item : Item) : Prop :=
  e.isDir = false ∧ hasJsonExt e.name = true ∧ 32 ≤ e.data.length ∧
  c.hmacSha256 secret (e.data.take (e.data.length - 32)) = e.data.drop (e.data.length - 32) ∧
  c.jsonUnmarshalItem (e.data.take (e.data.length - 32)) = some item ∧
  e.name = c.uuidStr item.id ++ ".json"

/-- An executable instance of the abstract primitives, used to evaluate the
model at concrete inputs. -/
def testCrypto : Crypto where
  sha256Str := fun s => [s.length]
  sum := fun bs => "h" ++ toString bs.length
  hmacSha256 := fun _ m => List.replicate 31 0 ++ [m.length % 256]
  identityHmacSecret := fun i => [i]
  jsonMarshalItem := fun item => [item.id % 256]
  jsonUnmarshalItem := fun bs =>
    match bs with
    | [n] => some { id := n, description := "", checksum := "", modifiedAt := 0 }
    | [n, k] => some { id := n, description := "", checksum := "h" ++ toString k, modifiedAt := 0 }
    | _ => none
  uuidStr := fun n => toString n

/-- The freshly constructed vault: locked, empty store. -/
def vLocked : Vault :=
  { fs := [], identityKey := none, metadataHmacSecret := none, primaryRecipient := none,
    recoveryRecipient := none, items := none }

/-- Unlock environment in which writing the freshly generated identity
file fails. -/
def envWriteIdFails : UnlockEnv :=
  { statFails := false, genIdentity := 7, genFails := false, writeIdentityFails := true,
    openHmacFails := false, readDirFails := false }

/-- A write environment with no injected failures. -/
def wEnvOk : WriteEnv :=
  { now := 11, copyFails := false, writeValueFails := false, openHmacFails := false,
    writeMetaFails := false }

/-- An item that has a stored value with checksum matching testCrypto. -/
def itemStored : Item := { id := 4, description := "d", checksum := "h2", modifiedAt := 0 }

/-- An unlocked coherent vault holding itemStored and its value file. -/
def vStored : Vault :=
  { fs := [(VPath.identity, Content.identityEnc [2] 7),
      (VPath.value 4, Content.age [recipientOf 7] [1, 2])],
    identityKey := some [2], metadataHmacSecret := some [8],
    primaryRecipient := some (recipientOf 7), recoveryRecipient := none,
    items := some [(4, itemStored)] }

/-- An item with a stored checksum that does not match its value file. -/
def itemTampered : Item := { id := 4, description := "d", checksum := "zz", modifiedAt := 0 }

/-- vStored with the stored checksum replaced by a mismatching one. -/
def vTampered : Vault :=
  { vStored with items := some [(4, itemTampered)] }

/-- An unlocked vault whose identity file has been removed from disk after
the unlock, while an item with a stored value remains readable. -/
def vNoIdentityFile : Vault :=
  { fs := [(VPath.value 4, Content.age [recipientOf 7] [1, 2])],
    identityKey := some [2], metadataHmacSecret := some [8],
    primaryRecipient := some (recipientOf 7), recoveryRecipient := none,
    items := some [(4, itemStored)] }

/-- A freshly created item: empty checksum, no value file yet. -/
def itemFresh : Item := { id := 3, description := "fresh", checksum := "", modifiedAt := 0 }

/-- An unlocked coherent vault holding itemFresh and no value file. -/
def vFresh : Vault :=
  { fs := [(VPath.identity, Content.identityEnc [2] 7)],
    identityKey := some [2], metadataHmacSecret := some [8],
    primaryRecipient := some (recipientOf 7), recoveryRecipient := none,
    items := some [(3, itemFresh)] }

/-- An unlocked coherent vault with an empty item table, for the round
trip of claim three. -/
def vEmptyTable : Vault :=
  { fs := [(VPath.identity, Content.identityEnc [2] 7)],
    identityKey := some [2], metadataHmacSecret := some [8],
    primaryRecipient := some (recipientOf 7), recoveryRecipient := none,
    items := some [] }

/-- Creation environment with no injected failures. -/
def cEnvOk : CreateEnv :=
  { newId := 6, now := 10, openHmacFails := false, writeMetaFails := false }

/-- A metadata file accepted by testCrypto: record byte 5, then the 31 zero
bytes and the length byte that testCrypto produces as the MAC. -/
def goodEntry : DirEntry :=
  { name := "5.json", isDir := false, data := [5] ++ List.replicate 31 0 ++ [1] }

/-- A metadata file of valid length whose trailing MAC does not verify
under testCrypto; one flipped trailing byte relative to a valid file. -/
def badEntry : DirEntry :=
  { name := "6.json", isDir := false, data := [6] ++ List.replicate 31 0 ++ [2] }

/-- A directory listing with one accepted file, one rejected file, a non
json file and a subdirectory. -/
def dirMixed : List DirEntry :=
  [goodEntry, badEntry,
    { name := "5.age", isDir := false, data := [9] },
    { name := "sub", isDir := true, data := [] }]

/-- A truncated metadata file: fewer than 32 bytes. -/
def shortEntry : DirEntry := { name := "9.json", isDir := false, data := [1, 2, 3] }

/-- A directory listing holding a truncated metadata file. -/
def dirShort : List DirEntry := [goodEntry, shortEntry]

/-- Recovery environment with no injected failures. -/
def recEnvOk : RecoveryEnv :=
  { openHmacFails := false, writeNewFails := false, restore1 := false, restore2 := false,
    restore3 := false, readDirFails := false, perItem := fun _ => wEnvOk }

/-- An unlocked coherent vault with one stored item, its metadata file and
its value file, for the recovery rotation of claim eight. -/
def vRotate : Vault :=
  { fs := [(VPath.identity, Content.identityEnc [2] 7),
      (VPath.meta 5, Content.raw ([5, 2] ++ List.replicate 31 0 ++ [2])),
      (VPath.value 5, Content.age [recipientOf 7] [1, 2])],
    identityKey := some [2], metadataHmacSecret := some [8],
    primaryRecipient := some (recipientOf 7), recoveryRecipient := none,
    items := some [(5, { id := 5, description := "", checksum := "h2", modifiedAt := 0 })] }

theorem lookup_filterKey_ne {l : List (VPath × Content)} {p q : VPath} (h : q ≠ p) :
    (l.filter (fun e => !(e.1 == p))).lookup q = l.lookup q := by
  induction l with
  | nil => rfl
  | cons e t ih =>
      by_cases hep : e.1 = p
      · have hq : (q == p) = false := beq_eq_false_iff_ne.mpr h
        simp [List.filter_cons, hep, List.lookup, hq, ih]
      · by_cases hqe : q = e.1
        · simp [List.filter_cons, hep, List.lookup, hqe]
        · have hq : (q == e.1) = false := beq_eq_false_iff_ne.mpr hqe
          simp [List.filter_cons, hep, List.lookup, hq, ih]

theorem fsWrite_lookup_self (fs : FS) (p : VPath) (ct : Content) :
    (fsWrite fs p ct).lookup p = some ct := by
  simp [fsWrite, List.lookup]

theorem fsWrite_lookup_ne (fs : FS) (p : VPath) (ct : Content) {q : VPath} (h : q ≠ p) :
    (fsWrite fs p ct).lookup q = fs.lookup q := by
  have hq : (q == p) = false := beq_eq_false_iff_ne.mpr h
  simp [fsWrite, List.lookup, hq, lookup_filterKey_ne h]

theorem mapInsert_lookup_self (m : ItemMap) (k : UUID) (itm : Item) :
    (mapInsert m k itm).lookup k = some itm := by
  simp [mapInsert, List.lookup]

theorem mem_mapInsert {m : ItemMap} {k : UUID} {itm : Item} {id : UUID} {it : Item} :
    (id, it) ∈ mapInsert m k itm ↔ (id = k ∧ it = itm) ∨ ((id, it) ∈ m ∧ id ≠ k) := by
  simp only [mapInsert, List.mem_cons, List.mem_filter, Prod.mk.injEq, Bool.not_eq_true',
    beq_eq_false_iff_ne, ne_eq]

/-- Claim C1, code bug evidence.  Unlock of the drone vault on a locked
empty store, in the branch where a fresh identity is generated but writing
the .identity file fails, returns the unlock error while leaving the
identity key enclave set: afterwards IsLocked reports false and the other
three fields are still absent, so a partially unlocked state is observable,
contradicting the claimed invariant. -/
theorem unlock_writeIdentity_failure_partial_state :
    (vLocked.Unlock testCrypto envWriteIdFails "pw").2 = .err "failed to verify passphrase" ∧
    (vLocked.Unlock testCrypto envWriteIdFails "pw").1.IsLocked = false ∧
    (vLocked.Unlock testCrypto envWriteIdFails "pw").1.identityKey
      = some (testCrypto.sha256Str "pw") ∧
    (vLocked.Unlock testCrypto envWriteIdFails "pw").1.metadataHmacSecret = none ∧
    (vLocked.Unlock testCrypto envWriteIdFails "pw").1.primaryRecipient = none ∧
    (vLocked.Unlock testCrypto envWriteIdFails "pw").1.items = none := by decide

/-- Claim C4, code bug evidence.  On an unlocked vault whose identity file
has disappeared from disk, GetItem of an item with a stored value reaches
decryptFromRestUnsafe, whose identity read failure calls log.Fatal: the
call ends in a process abort instead of returning an error to the caller. -/
theorem getItem_identity_error_aborts :
    vNoIdentityFile.IsLocked = false ∧
    (vNoIdentityFile.GetItem testCrypto 4).res = .abort "error reading identity" := by decide

/-- Claim C5, code bug evidence.  The credentials store variant of
writeItemValueUnsafe attempts the backup copy unconditionally, so the very
first write of a freshly created item, whose prior checksum is empty and
for which no previous value file exists, fails with the backup error; the
drone variant on the same state skips the backup, succeeds, and creates no
backup file. -/
theorem credVault_first_write_attempts_backup :
    (CredVault.writeItemValueUnsafe vFresh testCrypto wEnvOk itemFresh [1]).2
      = .err "failed to create backup of previous value" ∧
    (vFresh.writeItemValueUnsafe testCrypto wEnvOk itemFresh [1]).2 = .ok () ∧
    (vFresh.writeItemValueUnsafe testCrypto wEnvOk itemFresh [1]).1.fs.lookup
      (VPath.backup 3 11) = none := by decide

/-- Claim C9.  Every listed failure cause of verifyClientCredentials, an id
that does not parse as a UUID, an id whose item does not exist or cannot be
read (GetItem returns an error), or a provided secret different from the
stored token, yields an error with the identical opaque message, so the
causes are indistinguishable to the caller. -/
theorem verifyClientCredentials_uniform_error (v : Vault) (c : Crypto)
    (uuidParse : String → Option UUID) (cred : ClientCredentials)
    (h : uuidParse cred.id = none ∨
      (∃ itemId msg, uuidParse cred.id = some itemId ∧ (v.GetItem c itemId).res = .err msg) ∨
      (∃ itemId token, uuidParse cred.id = some itemId ∧
        (v.GetItem c itemId).res = .ok (some token) ∧ cred.secret ≠ token)) :
    verifyClientCredentials v c uuidParse cred = .err "client credentials mismatch" := by
  rcases h with h | ⟨itemId, msg, h1, h2⟩ | ⟨itemId, token, h1, h2, h3⟩
  · simp [verifyClientCredentials, h]
  · simp [verifyClientCredentials, h1, h2]
  · simp [verifyClientCredentials, h1, h2, h3]

/-- Witness for claim C9 at a concrete input: a wrong secret for an
existing readable item is answered with the opaque message. -/
theorem verifyClientCredentials_uniform_error_witness :
    ((vStored.GetItem testCrypto 4).res = .ok (some [1, 2]) ∧ ([9] : Bytes) ≠ [1, 2]) ∧
    verifyClientCredentials vStored testCrypto (fun _ => some 4) { id := "4", secret := [9] }
      = .err "client credentials mismatch" :=
  ⟨by decide,
    verifyClientCredentials_uniform_error vStored testCrypto (fun _ => some 4)
      { id := "4", secret := [9] }
      (Or.inr (Or.inr ⟨4, [1, 2], by decide, by decide, by decide⟩))⟩

/-- Claim C7, counterexample.  On a locked vault, SetItemValue with an
empty value returns the empty value error, not the locked error, and Items
does not return an error at all: it yields an empty snapshot, because the
source Items has no error result and performs no lock check. -/
theorem locked_vault_counterexample :
    (vLocked.SetItemValue testCrypto wEnvOk 7 []).2 = .err "value is empty" ∧
    (vLocked.SetItemValue testCrypto wEnvOk 7 []).2 ≠ .err "vault is locked" ∧
    vLocked.Items = [] := by decide

/-- Claim C7, amended.  On a locked vault, Lock, CreateItem, DeleteItem,
GetItem, SetItemValue with a non empty value and SetRecoveryRecipient all
return the locked error and leave the in memory and on disk state
unchanged; Items is excluded because it returns the empty snapshot without
an error channel, and SetItemValue with an empty value is excluded because
the empty value check precedes the lock check. -/
theorem locked_vault_operations (v : Vault) (c : Crypto)
    (h1 : v.identityKey = none) (h2 : v.items = none) :
    v.Lock = (v, .err "vault is locked") ∧
    (∀ env desc, v.CreateItem c env desc = (v, .err "vault is locked")) ∧
    (∀ id, v.DeleteItem id = (v, .err "vault is locked")) ∧
    (∀ id, v.GetItem c id = { res := .err "vault is locked", plainDestroyed := false }) ∧
    (∀ env id value, value ≠ ([] : Bytes) →
      v.SetItemValue c env id value = (v, .err "vault is locked")) ∧
    (∀ env r, v.SetRecoveryRecipient c env r = (v, .err "vault is locked")) ∧
    v.Items = [] ∧
    (∀ env id, v.SetItemValue c env id [] = (v, .err "value is empty")) := by
  have hl : v.IsLocked = true := by simp [Vault.IsLocked, h1]
  refine ⟨?_, ?_, ?_, ?_, ?_, ?_, ?_, ?_⟩
  · simp [Vault.Lock, hl]
  · intro env desc
    simp [Vault.CreateItem, hl]
  · intro id
    simp [Vault.DeleteItem, hl]
  · intro id
    simp [Vault.GetItem, hl]
  · intro env id value hval
    have hlen : value.length ≠ 0 := by
      simpa [List.length_eq_zero] using hval
    simp [Vault.SetItemValue, hl, hlen]
  · intro env r
    simp [Vault.SetRecoveryRecipient, hl]
  · simp [Vault.Items, h2]
  · intro env id
    simp [Vault.SetItemValue]

/-- Witness for claim C7 at a concrete locked vault. -/
theorem locked_vault_operations_witness :
    (vLocked.identityKey = none ∧ vLocked.items = none) ∧
    vLocked.Lock = (vLocked, .err "vault is locked") :=
  ⟨⟨rfl, rfl⟩, (locked_vault_operations vLocked testCrypto rfl rfl).1⟩

/-- Claim C2.  For an unlocked vault and an item id present in the table:
an empty checksum yields the nil buffer with no error; any successful read
returns a buffer whose hash equals the stored checksum; and whenever the
value file decrypts, a matching hash returns exactly the decrypted
plaintext while a mismatching hash fails the read with an error and
destroys the plaintext buffer. -/
theorem getItem_checksum_spec (v : Vault) (c : Crypto) (id : UUID) (item : Item)
    (hlock : v.IsLocked = false)
    (hitem : itemsLookup v.items id = some item) :
    (item.checksum = "" → v.GetItem c id = { res := .ok none, plainDestroyed := false }) ∧
    (∀ b, (v.GetItem c id).res = .ok (some b) → c.sum b = item.checksum) ∧
    (∀ ct plain, item.checksum ≠ "" →
      v.fs.lookup (VPath.value item.id) = some ct →
      v.decryptFromRestUnsafe ct = .ok plain →
      ((c.sum plain = item.checksum →
        v.GetItem c id = { res := .ok (some plain), plainDestroyed := false }) ∧
       (c.sum plain ≠ item.checksum →
        v.GetItem c id =
          { res := .err ("failed to read item value (" ++ c.uuidStr item.id
              ++ "): checksum mismatch"),
            plainDestroyed := true }))) := by
  refine ⟨?_, ?_, ?_⟩
  · intro h
    simp [Vault.GetItem, hlock, hitem, h]
  · intro b hb
    by_cases hcs : item.checksum = ""
    · simp [Vault.GetItem, hlock, hitem, hcs] at hb
    · cases hlu : v.fs.lookup (VPath.value item.id) with
      | none =>
          simp [Vault.GetItem, hlock, hitem, hcs, Vault.readItemValueUnsafe, hlu, resMap] at hb
      | some ct =>
          cases hdec : v.decryptFromRestUnsafe ct with
          | ok plain =>
              by_cases hsum : c.sum plain = item.checksum
              · have hbp : plain = b := by
                  simpa [Vault.GetItem, hlock, hitem, hcs, Vault.readItemValueUnsafe, hlu,
                    hdec, hsum, resMap] using hb
                rw [← hbp]
                exact hsum
              · simp [Vault.GetItem, hlock, hitem, hcs, Vault.readItemValueUnsafe, hlu,
                  hdec, hsum, resMap] at hb
          | err m =>
              simp [Vault.GetItem, hlock, hitem, hcs, Vault.readItemValueUnsafe, hlu,
                hdec, resMap] at hb
          | abort m =>
              simp [Vault.GetItem, hlock, hitem, hcs, Vault.readItemValueUnsafe, hlu,
                hdec, resMap] at hb
  · intro ct plain hcs hlu hdec
    constructor
    · intro hsum
      simp [Vault.GetItem, hlock, hitem, hcs, Vault.readItemValueUnsafe, hlu, hdec, hsum,
        resMap]
    · intro hsum
      simp [Vault.GetItem, hlock, hitem, hcs, Vault.readItemValueUnsafe, hlu, hdec, hsum,
        resMap]

/-- Witness for claim C2 at a concrete input: the stored value of the item
round trips through decryption and checksum verification. -/
theorem getItem_checksum_spec_witness :
    (vStored.IsLocked = false ∧ itemsLookup vStored.items 4 = some itemStored) ∧
    vStored.GetItem testCrypto 4 = { res := .ok (some [1, 2]), plainDestroyed := false } :=
  ⟨⟨by decide, by decide⟩,
    ((getItem_checksum_spec vStored testCrypto 4 itemStored (by decide) (by decide)).2.2
      (Content.age [recipientOf 7] [1, 2]) [1, 2] (by decide) (by decide) (by decide)).1
      (by decide)⟩

theorem readItemMetadataUnsafe_not_abort (c : Crypto) (secret : Bytes) (base : String)
    {bs : Bytes} (h : 32 ≤ bs.length) (msg : String) :
    readItemMetadataUnsafe c secret base bs ≠ .abort msg := by
  unfold readItemMetadataUnsafe
  rw [if_neg (Nat.not_lt.mpr h)]
  by_cases hmac : c.hmacSha256 secret (bs.take (bs.length - 32)) = bs.drop (bs.length - 32)
  · rw [if_pos hmac]
    cases hj : c.jsonUnmarshalItem (bs.take (bs.length - 32)) with
    | some md => by_cases hb : base = c.uuidStr md.id ++ ".json" <;> simp [hb]
    | none => simp
  · rw [if_neg hmac]
    simp

theorem readAllMetadataGo_abort (c : Crypto) (secret : Bytes) :
    ∀ (dir : List DirEntry) (acc : ItemMap),
      (∃ e ∈ dir, e.isDir = false ∧ hasJsonExt e.name = true ∧ e.data.length < 32) →
      readAllMetadataGo c secret dir acc = .abort "runtime error: slice bounds out of range" := by
  intro dir
  induction dir with
  | nil =>
      intro acc h
      rcases h with ⟨e, he, _⟩
      exact absurd he (List.not_mem_nil e)
  | cons e rest ih =>
      intro acc h
      by_cases hf : (!e.isDir && hasJsonExt e.name) = true
      · by_cases hshort : e.data.length < 32
        · have : readItemMetadataUnsafe c secret e.name e.data
              = .abort "runtime error: slice bounds out of range" := by
            unfold readItemMetadataUnsafe
            rw [if_pos hshort]
          simp only [readAllMetadataGo, hf, if_true, this]
        · rcases h with ⟨w, hw, hw1, hw2, hw3⟩
          rcases List.mem_cons.mp hw with hwe | hwr
          · rw [hwe] at hw3
            exact absurd hw3 hshort
          · have hrest : ∃ x ∈ rest, x.isDir = false ∧ hasJsonExt x.name = true ∧
                x.data.length < 32 := ⟨w, hwr, hw1, hw2, hw3⟩
            cases hr : readItemMetadataUnsafe c secret e.name e.data with
            | ok md => simp only [readAllMetadataGo, hf, if_true, hr, ih _ hrest]
            | err m => simp only [readAllMetadataGo, hf, if_true, hr, ih _ hrest]
            | abort m =>
                exact absurd hr (readItemMetadataUnsafe_not_abort c secret e.name
                  (Nat.not_lt.mp hshort) m)
      · rcases h with ⟨w, hw, hw1, hw2, hw3⟩
        rcases List.mem_cons.mp hw with hwe | hwr
        · rw [hwe] at hw1 hw2
          simp [hw1, hw2] at hf
        · have hrest : ∃ x ∈ rest, x.isDir = false ∧ hasJsonExt x.name = true ∧
              x.data.length < 32 := ⟨w, hwr, hw1, hw2, hw3⟩
          have hf2 : (!e.isDir && hasJsonExt e.name) = false := by
            simpa using hf
          simp only [readAllMetadataGo, hf2, Bool.false_eq_true, if_false, ih _ hrest]

/-- Claim C10.  A metadata file shorter than 32 bytes makes
readItemMetadataUnsafe slice with a negative bound, which is a runtime
panic; the panic propagates through readAllMetadataUnsafe, so a truncated
json file crashes the metadata load of Unlock instead of being skipped with
an error; and the MAC verification path never panics on files of at least
32 bytes. -/
theorem readItemMetadata_truncated_panics (c : Crypto) (secret : Bytes) (base : String)
    (bs : Bytes) (dir : List DirEntry)
    (hshort : bs.length < 32)
    (hdir : ∃ e ∈ dir, e.isDir = false ∧ hasJsonExt e.name = true ∧ e.data.length < 32) :
    readItemMetadataUnsafe c secret base bs
      = .abort "runtime error: slice bounds out of range" ∧
    readAllMetadataUnsafe c secret dir
      = .abort "runtime error: slice bounds out of range" ∧
    (∀ bs2 : Bytes, 32 ≤ bs2.length → ∀ msg,
      readItemMetadataUnsafe c secret base bs2 ≠ .abort msg) := by
  refine ⟨?_, ?_, ?_⟩
  · unfold readItemMetadataUnsafe
    rw [if_pos hshort]
  · exact readAllMetadataGo_abort c secret dir [] hdir
  · intro bs2 h2 msg
    exact readItemMetadataUnsafe_not_abort c secret base h2 msg

/-- Witness for claim C10 at a concrete input: a directory holding one
valid metadata file and one three byte file; the load panics. -/
theorem readItemMetadata_truncated_panics_witness :
    (shortEntry.data.length < 32 ∧
      (∃ e ∈ dirShort, e.isDir = false ∧ hasJsonExt e.name = true ∧ e.data.length < 32)) ∧
    readAllMetadataUnsafe testCrypto [8] dirShort
      = .abort "runtime error: slice bounds out of range" :=
  ⟨⟨by decide, by decide⟩,
    (readItemMetadata_truncated_panics testCrypto [8] "9.json" shortEntry.data dirShort
      (by decide) (by decide)).2.1⟩

theorem entryAccepted_iff (c : Crypto) (secret : Bytes) (e : DirEntry) (item : Item) :
    EntryAccepted c secret e item ↔
      (e.isDir = false ∧ hasJsonExt e.name = true ∧
        readItemMetadataUnsafe c secret e.name e.data = .ok item) := by
  constructor
  · rintro ⟨h1, h2, h3, h4, h5, h6⟩
    refine ⟨h1, h2, ?_⟩
    unfold readItemMetadataUnsafe
    rw [if_neg (Nat.not_lt.mpr h3), if_pos h4]
    simp only [h5]
    rw [if_pos h6]
  · rintro ⟨h1, h2, h3⟩
    unfold readItemMetadataUnsafe at h3
    by_cases hs : e.data.length < 32
    · rw [if_pos hs] at h3
      cases h3
    · rw [if_neg hs] at h3
      by_cases hmac : c.hmacSha256 secret (e.data.take (e.data.length - 32))
          = e.data.drop (e.data.length - 32)
      · rw [if_pos hmac] at h3
        cases hj : c.jsonUnmarshalItem (e.data.take (e.data.length - 32)) with
        | some md =>
            simp only [hj] at h3
            by_cases hb : e.name = c.uuidStr md.id ++ ".json"
            · rw [if_pos hb] at h3
              injection h3 with h4
              subst h4
              exact ⟨h1, h2, Nat.not_lt.mp hs, hmac, hj, hb⟩
            · rw [if_neg hb] at h3
              cases h3
        | none =>
            simp only [hj] at h3
            cases h3
      · rw [if_neg hmac] at h3
        cases h3

theorem readAllMetadataGo_mem (c : Crypto) (secret : Bytes) :
    ∀ (dir : List DirEntry) (acc : ItemMap),
      (∀ e ∈ dir, e.isDir = false → hasJsonExt e.name = true → 32 ≤ e.data.length) →
      (dir.map DirEntry.name).Nodup →
      ∃ m, readAllMetadataGo c secret dir acc = .ok m ∧
        ∀ id item, (id, item) ∈ m ↔
          ((∃ e ∈ dir, EntryAccepted c secret e item ∧ item.id = id) ∨
           ((id, item) ∈ acc ∧ ¬∃ e ∈ dir, ∃ it, EntryAccepted c secret e it ∧ it.id = id)) := by
  intro dir
  induction dir with
  | nil =>
      intro acc _ _
      refine ⟨acc, rfl, ?_⟩
      intro id item
      simp
  | cons e rest ih =>
      intro acc hlen hnd
      have hlenr : ∀ x ∈ rest, x.isDir = false → hasJsonExt x.name = true →
          32 ≤ x.data.length := fun x hx => hlen x (List.mem_cons_of_mem e hx)
      have hnd2 : e.name ∉ rest.map DirEntry.name ∧ (rest.map DirEntry.name).Nodup :=
        List.nodup_cons.mp (by simpa using hnd)
      have hname : e.name ∉ rest.map DirEntry.name := hnd2.1
      have hndr : (rest.map DirEntry.name).Nodup := hnd2.2
      by_cases hf : (!e.isDir && hasJsonExt e.name) = true
      · have hsplit : e.isDir = false ∧ hasJsonExt e.name = true := by simpa using hf
        obtain ⟨hdir, hext⟩ := hsplit
        have hlene : 32 ≤ e.data.length := hlen e (List.mem_cons_self e rest) hdir hext
        cases hr : readItemMetadataUnsafe c secret e.name e.data with
        | abort m0 =>
            exact absurd hr (readItemMetadataUnsafe_not_abort c secret e.name hlene m0)
        | err m0 =>
            have hnoe : ∀ it, ¬ EntryAccepted c secret e it := by
              intro it hacc
              have h3 := ((entryAccepted_iff c secret e it).mp hacc).2.2
              rw [hr] at h3
              cases h3
            obtain ⟨m, hm, hchar⟩ := ih acc hlenr hndr
            refine ⟨m, ?_, ?_⟩
            · simp only [readAllMetadataGo, hf, if_true, hr]
              exact hm
            · intro id item
              rw [hchar id item]
              constructor
              · rintro (⟨w, hw, hacc, hid⟩ | ⟨hin, hno⟩)
                · exact Or.inl ⟨w, List.mem_cons_of_mem e hw, hacc, hid⟩
                · refine Or.inr ⟨hin, ?_⟩
                  rintro ⟨w, hw, it, hacc, hid⟩
                  rcases List.mem_cons.mp hw with hwe | hwr
                  · exact hnoe it (hwe ▸ hacc)
                  · exact hno ⟨w, hwr, it, hacc, hid⟩
              · rintro (⟨w, hw, hacc, hid⟩ | ⟨hin, hno⟩)
                · rcases List.mem_cons.mp hw with hwe | hwr
                  · exact absurd (hwe ▸ hacc) (hnoe item)
                  · exact Or.inl ⟨w, hwr, hacc, hid⟩
                · exact Or.inr ⟨hin, fun hx =>
                    hno (by
                      rcases hx with ⟨w, hwr, it, hacc, hid⟩
                      exact ⟨w, List.mem_cons_of_mem e hwr, it, hacc, hid⟩)⟩
        | ok md =>
            have hacc_e : EntryAccepted c secret e md :=
              (entryAccepted_iff c secret e md).mpr ⟨hdir, hext, hr⟩
            have hename : e.name = c.uuidStr md.id ++ ".json" := hacc_e.2.2.2.2.2
            have huniq : ∀ it, EntryAccepted c secret e it → it = md := by
              intro it hacc
              have h3 := ((entryAccepted_iff c secret e it).mp hacc).2.2
              rw [hr] at h3
              injection h3 with h4
              exact h4.symm
            have hK2 : ¬∃ w ∈ rest, ∃ it, EntryAccepted c secret w it ∧ it.id = md.id := by
              rintro ⟨w, hwr, it, hacc, hid⟩
              have hwn : w.name = c.uuidStr it.id ++ ".json" := hacc.2.2.2.2.2
              rw [hid] at hwn
              have hwe : w.name = e.name := by rw [hwn, hename]
              have : w.name ∈ rest.map DirEntry.name := List.mem_map_of_mem DirEntry.name hwr
              rw [hwe] at this
              exact hname this
            obtain ⟨m, hm, hchar⟩ := ih (mapInsert acc md.id md) hlenr hndr
            refine ⟨m, ?_, ?_⟩
            · simp only [readAllMetadataGo, hf, if_true, hr]
              exact hm
            · intro id item
              rw [hchar id item]
              by_cases hid : id = md.id
              · subst hid
                constructor
                · rintro (⟨w, hwr, hacc, hid2⟩ | ⟨hin, hno⟩)
                  · exact absurd ⟨w, hwr, item, hacc, hid2⟩ hK2
                  · have hitem : item = md := by
                      rcases mem_mapInsert.mp hin with ⟨_, h2⟩ | ⟨_, hne⟩
                      · exact h2
                      · exact absurd rfl hne
                    subst hitem
                    exact Or.inl ⟨e, List.mem_cons_self e rest, hacc_e, rfl⟩
                · rintro (⟨w, hwc, hacc, hid2⟩ | ⟨hin, hno⟩)
                  · rcases List.mem_cons.mp hwc with hwe | hwr
                    · have hitem : item = md := huniq item (hwe ▸ hacc)
                      subst hitem
                      exact Or.inr ⟨mem_mapInsert.mpr (Or.inl ⟨rfl, rfl⟩), hK2⟩
                    · exact absurd ⟨w, hwr, item, hacc, hid2⟩ hK2
                  · exact absurd ⟨e, List.mem_cons_self e rest, md, hacc_e, rfl⟩ hno
              · constructor
                · rintro (⟨w, hwr, hacc, hid2⟩ | ⟨hin, hno⟩)
                  · exact Or.inl ⟨w, List.mem_cons_of_mem e hwr, hacc, hid2⟩
                  · have hin2 : (id, item) ∈ acc := by
                      rcases mem_mapInsert.mp hin with ⟨h1, _⟩ | ⟨h1, _⟩
                      · exact absurd h1 hid
                      · exact h1
                    refine Or.inr ⟨hin2, ?_⟩
                    rintro ⟨w, hwc, it, hacc, hid2⟩
                    rcases List.mem_cons.mp hwc with hwe | hwr
                    · have hit : it = md := huniq it (hwe ▸ hacc)
                      rw [hit] at hid2
                      exact hid hid2.symm
                    · exact hno ⟨w, hwr, it, hacc, hid2⟩
                · rintro (⟨w, hwc, hacc, hid2⟩ | ⟨hin, hno⟩)
                  · rcases List.mem_cons.mp hwc with hwe | hwr
                    · have hitem : item = md := huniq item (hwe ▸ hacc)
                      rw [hitem] at hid2
                      exact absurd hid2.symm hid
                    · exact Or.inl ⟨w, hwr, hacc, hid2⟩
                  · refine Or.inr ⟨mem_mapInsert.mpr (Or.inr ⟨hin, hid⟩), ?_⟩
                    rintro ⟨w, hwr, it, hacc, hid2⟩
                    exact hno ⟨w, List.mem_cons_of_mem e hwr, it, hacc, hid2⟩
      · have hf2 : (!e.isDir && hasJsonExt e.name) = false := by simpa using hf
        have hnoe : ∀ it, ¬ EntryAccepted c secret e it := by
          intro it hacc
          obtain ⟨h1, h2, _⟩ := (entryAccepted_iff c secret e it).mp hacc
          simp [h1, h2] at hf2
        obtain ⟨m, hm, hchar⟩ := ih acc hlenr hndr
        refine ⟨m, ?_, ?_⟩
        · simp only [readAllMetadataGo, hf2, Bool.false_eq_true, if_false]
          exact hm
        · intro id item
          rw [hchar id item]
          constructor
          · rintro (⟨w, hw, hacc, hid⟩ | ⟨hin, hno⟩)
            · exact Or.inl ⟨w, List.mem_cons_of_mem e hw, hacc, hid⟩
            · refine Or.inr ⟨hin, ?_⟩
              rintro ⟨w, hw, it, hacc, hid⟩
              rcases List.mem_cons.mp hw with hwe | hwr
              · exact hnoe it (hwe ▸ hacc)
              · exact hno ⟨w, hwr, it, hacc, hid⟩
          · rintro (⟨w, hw, hacc, hid⟩ | ⟨hin, hno⟩)
            · rcases List.mem_cons.mp hw with hwe | hwr
              · exact absurd (hwe ▸ hacc) (hnoe item)
              · exact Or.inl ⟨w, hwr, hacc, hid⟩
            · exact Or.inr ⟨hin, fun hx =>
                hno (by
                  rcases hx with ⟨w, hwr, it, hacc, hid⟩
                  exact ⟨w, List.mem_cons_of_mem e hwr, it, hacc, hid⟩)⟩

/-- Claim C6.  Under the metadata HMAC secret, the table produced by
readAllMetadataUnsafe holds exactly the items of those regular json files
whose trailing 32 byte MAC verifies, whose record parses, and whose
basename equals the rendered item id plus .json; every file failing any
check is skipped while the load as a whole still succeeds, so such an item
is invisible rather than fatal or silently consumed.  Applied by Unlock to
populate the in memory table. -/
theorem readAllMetadata_mac_filter_spec (c : Crypto) (secret : Bytes) (dir : List DirEntry)
    (hlen : ∀ e ∈ dir, e.isDir = false → hasJsonExt e.name = true → 32 ≤ e.data.length)
    (hnd : (dir.map DirEntry.name).Nodup) :
    ∃ m, readAllMetadataUnsafe c secret dir = .ok m ∧
      ∀ id item, (id, item) ∈ m ↔
        ∃ e ∈ dir, EntryAccepted c secret e item ∧ item.id = id := by
  obtain ⟨m, hm, hchar⟩ := readAllMetadataGo_mem c secret dir [] hlen hnd
  refine ⟨m, hm, ?_⟩
  intro id item
  rw [hchar id item]
  simp

/-- Witness for claim C6 at a concrete directory: one accepted file, one
file with a flipped MAC byte, one non json file and one subdirectory. -/
theorem readAllMetadata_mac_filter_spec_witness :
    ((∀ e ∈ dirMixed, e.isDir = false → hasJsonExt e.name = true → 32 ≤ e.data.length) ∧
      (dirMixed.map DirEntry.name).Nodup) ∧
    (∃ m, readAllMetadataUnsafe testCrypto [8] dirMixed = .ok m ∧
      ∀ id item, (id, item) ∈ m ↔
        ∃ e ∈ dirMixed, EntryAccepted testCrypto [8] e item ∧ item.id = id) :=
  ⟨⟨by decide, by decide⟩,
    readAllMetadata_mac_filter_spec testCrypto [8] dirMixed (by decide) (by decide)⟩

theorem fsWrite_lookup (fs : FS) (p : VPath) (ct : Content) (q : VPath) :
    (fsWrite fs p ct).lookup q = if q = p then some ct else fs.lookup q := by
  by_cases h : q = p
  · subst h
    simp [fsWrite_lookup_self]
  · simp [fsWrite_lookup_ne _ _ _ h, h]

/-- Claim C3.  On an unlocked coherent vault, for every non empty value:
CreateItem yields the fresh empty checksum record, the first SetItemValue
on it succeeds without touching a backup, and GetItem afterwards returns a
buffer byte equal to the stored value, the round trip through age
encryption and decryption. -/
theorem create_set_get_roundtrip (v : Vault) (c : Crypto) (cenv : CreateEnv)
    (wenv : WriteEnv) (desc : String) (value : Bytes) (key : Bytes) (ident : Identity)
    (m : ItemMap) (s : Bytes)
    (hkey : v.identityKey = some key)
    (hid : v.fs.lookup VPath.identity = some (Content.identityEnc key ident))
    (hprim : v.primaryRecipient = some (recipientOf ident))
    (hsec : v.metadataHmacSecret = some s)
    (hitems : v.items = some m)
    (hval : value ≠ [])
    (hsum : c.sum value ≠ "")
    (hc1 : cenv.openHmacFails = false) (hc2 : cenv.writeMetaFails = false)
    (hw1 : wenv.writeValueFails = false) (hw2 : wenv.openHmacFails = false)
    (hw3 : wenv.writeMetaFails = false) :
    (v.CreateItem c cenv desc).2
      = .ok { id := cenv.newId, description := desc, checksum := "", modifiedAt := cenv.now } ∧
    ((v.CreateItem c cenv desc).1.SetItemValue c wenv cenv.newId value).2 = .ok () ∧
    (((v.CreateItem c cenv desc).1.SetItemValue c wenv cenv.newId value).1.GetItem c
      cenv.newId).res = .ok (some value) := by
  have hlock : v.IsLocked = false := by simp [Vault.IsLocked, hkey]
  have hlen : value.length ≠ 0 := by simpa [List.length_eq_zero] using hval
  rcases hrec : v.recoveryRecipient with _ | r <;>
    simp [Vault.CreateItem, Vault.SetItemValue, Vault.GetItem, Vault.writeItemValueUnsafe,
      Vault.readItemValueUnsafe, Vault.decryptFromRestUnsafe, Vault.encryptForRestUnsafe,
      readIdentity, writeItemMetadataUnsafe, itemsLookup, Vault.IsLocked, resMap,
      hlock, hkey, hid, hprim, hsec, hitems, hc1, hc2, hw1, hw2, hw3, hrec, hsum, hlen,
      mapInsert_lookup_self, fsWrite_lookup]

theorem encryptForRestUnsafe_ok (v : Vault) (value : Bytes) (p : Recipient)
    (hprim : v.primaryRecipient = some p) :
    v.encryptForRestUnsafe value =
      .ok (Content.age
        (p :: (match v.recoveryRecipient with | some r => [r] | none => [])) value) := by
  cases hr : v.recoveryRecipient <;> simp [Vault.encryptForRestUnsafe, hprim, hr]

theorem valuesDecryptable_write_nonvalue (fs : FS) (ident : Identity) (p : VPath)
    (ct : Content) (hp : ∀ i, p ≠ VPath.value i) (h : ValuesDecryptable fs ident) :
    ValuesDecryptable (fsWrite fs p ct) ident := by
  intro i c2 hl
  rw [fsWrite_lookup, if_neg (fun he => hp i he.symm)] at hl
  exact h i c2 hl

theorem valuesDecryptable_write_value (fs : FS) (ident : Identity) (i0 : UUID)
    (recips : List Recipient) (plain : Bytes) (hmem : recipientOf ident ∈ recips)
    (h : ValuesDecryptable fs ident) :
    ValuesDecryptable (fsWrite fs (VPath.value i0) (Content.age recips plain)) ident := by
  intro i c2 hl
  rw [fsWrite_lookup] at hl
  by_cases hi : VPath.value i = VPath.value i0
  · rw [if_pos hi] at hl
    injection hl with hl2
    exact ⟨recips, plain, hl2.symm, hmem⟩
  · rw [if_neg hi] at hl
    exact h i c2 hl

theorem writeItemValueUnsafe_preserves (v : Vault) (c : Crypto) (env : WriteEnv)
    (item : Item) (value : Bytes) (key : Bytes) (ident : Identity)
    (hcoh : ReencCoh v key ident) (hvals : ValuesDecryptable v.fs ident) :
    ReencCoh (v.writeItemValueUnsafe c env item value).1 key ident ∧
    ValuesDecryptable (v.writeItemValueUnsafe c env item value).1.fs ident ∧
    (v.writeItemValueUnsafe c env item value).1.recoveryRecipient = v.recoveryRecipient ∧
    ∀ msg, (v.writeItemValueUnsafe c env item value).2 ≠ .abort msg := by
  obtain ⟨hkey, hid, hprim, hsec, hitems⟩ := hcoh
  obtain ⟨s, hs⟩ := Option.isSome_iff_exists.mp hsec
  obtain ⟨m, hm⟩ := Option.isSome_iff_exists.mp hitems
  have henc := encryptForRestUnsafe_ok v value (recipientOf ident) hprim
  have hmem : recipientOf ident ∈
      (recipientOf ident
        :: (match v.recoveryRecipient with | some r => [r] | none => [])) :=
    List.mem_cons_self _ _
  have hb1 : ∀ i ts, ∀ j : UUID, VPath.backup i ts ≠ VPath.value j := by
    intro i ts j h
    cases h
  have hb2 : ∀ i, ∀ j : UUID, VPath.meta i ≠ VPath.value j := by
    intro i j h
    cases h
  have hidb : ∀ (fs2 : FS) (p : VPath) (ct : Content), p ≠ VPath.identity →
      fs2.lookup VPath.identity = some (Content.identityEnc key ident) →
      (fsWrite fs2 p ct).lookup VPath.identity = some (Content.identityEnc key ident) := by
    intro fs2 p ct hp hl
    rw [fsWrite_lookup, if_neg (fun he => hp he.symm)]
    exact hl
  unfold Vault.writeItemValueUnsafe
  rw [henc]
  by_cases hcs : item.checksum = ""
  · rw [if_pos hcs]
    by_cases hwv : env.writeValueFails
    · simp only [hwv, if_true]
      exact ⟨⟨by simpa using hkey, by simpa using hid, by simpa using hprim,
        by simp [hsec], by simp [hitems]⟩, by simpa using hvals, by simp, by simp⟩
    · have hwv2 : env.writeValueFails = false := by simpa using hwv
      simp only [hwv2, Bool.false_eq_true, if_false, hs]
      have hvals2 : ValuesDecryptable
          (fsWrite v.fs (VPath.value item.id)
            (Content.age (recipientOf ident
              :: (match v.recoveryRecipient with | some r => [r] | none => [])) value))
          ident :=
        valuesDecryptable_write_value v.fs ident item.id _ value hmem hvals
      have hid2 : (fsWrite v.fs (VPath.value item.id)
          (Content.age (recipientOf ident
            :: (match v.recoveryRecipient with | some r => [r] | none => [])) value)).lookup
          VPath.identity = some (Content.identityEnc key ident) :=
        hidb v.fs _ _ (by intro h; cases h) hid
      by_cases hoh : env.openHmacFails
      · simp only [hoh, if_true]
        exact ⟨⟨by simpa using hkey, by simpa using hid2, by simpa using hprim,
          by simp, by simp [hitems]⟩, by simpa using hvals2, by simp, by simp⟩
      · have hoh2 : env.openHmacFails = false := by simpa using hoh
        simp only [hoh2, Bool.false_eq_true, if_false]
        unfold writeItemMetadataUnsafe
        by_cases hwm : env.writeMetaFails
        · simp only [hwm, if_true]
          exact ⟨⟨by simpa using hkey, by simpa using hid2, by simpa using hprim,
            by simp, by simp [hitems]⟩, by simpa using hvals2, by simp, by simp⟩
        · have hwm2 : env.writeMetaFails = false := by simpa using hwm
          simp only [hwm2, Bool.false_eq_true, if_false, hm]
          refine ⟨⟨by simpa using hkey, ?_, by simpa using hprim, by simp, by simp⟩,
            ?_, by simp, by simp⟩
          · simpa using hidb _ _ _ (by intro h; cases h) hid2
          · simpa using valuesDecryptable_write_nonvalue _ ident _ _ (hb2 item.id) hvals2
  · rw [if_neg hcs]
    unfold copyFile
    cases hlv : v.fs.lookup (VPath.value item.id) with
    | none =>
        simp only
        exact ⟨⟨by simpa using hkey, by simpa using hid, by simpa using hprim,
          by simp [hsec], by simp [hitems]⟩, by simpa using hvals, by simp, by simp⟩
    | some ct0 =>
        by_cases hcf : env.copyFails
        · simp only [hcf, if_true]
          exact ⟨⟨by simpa using hkey, by simpa using hid, by simpa using hprim,
            by simp [hsec], by simp [hitems]⟩, by simpa using hvals, by simp, by simp⟩
        · have hcf2 : env.copyFails = false := by simpa using hcf
          simp only [hcf2, Bool.false_eq_true, if_false]
          have hvalsB : ValuesDecryptable
              (fsWrite v.fs (VPath.backup item.id env.now) ct0) ident :=
            valuesDecryptable_write_nonvalue v.fs ident _ ct0 (hb1 item.id env.now) hvals
          have hidB : (fsWrite v.fs (VPath.backup item.id env.now) ct0).lookup VPath.identity
              = some (Content.identityEnc key ident) :=
            hidb v.fs _ _ (by intro h; cases h) hid
          by_cases hwv : env.writeValueFails
          · simp only [hwv, if_true]
            exact ⟨⟨by simpa using hkey, by simpa using hidB, by simpa using hprim,
              by simp [hsec], by simp [hitems]⟩, by simpa using hvalsB, by simp, by simp⟩
          · have hwv2 : env.writeValueFails = false := by simpa using hwv
            simp only [hwv2, Bool.false_eq_true, if_false, hs]
            have hvals2 : ValuesDecryptable
                (fsWrite (fsWrite v.fs (VPath.backup item.id env.now) ct0)
                  (VPath.value item.id)
                  (Content.age (recipientOf ident
                    :: (match v.recoveryRecipient with | some r => [r] | none => []))
                    value)) ident :=
              valuesDecryptable_write_value _ ident item.id _ value hmem hvalsB
            have hid2 : (fsWrite (fsWrite v.fs (VPath.backup item.id env.now) ct0)
                (VPath.value item.id)
                (Content.age (recipientOf ident
                  :: (match v.recoveryRecipient with | some r => [r] | none => []))
                  value)).lookup VPath.identity
                = some (Content.identityEnc key ident) :=
              hidb _ _ _ (by intro h; cases h) hidB
            by_cases hoh : env.openHmacFails
            · simp only [hoh, if_true]
              exact ⟨⟨by simpa using hkey, by simpa using hid2, by simpa using hprim,
                by simp, by simp [hitems]⟩, by simpa using hvals2, by simp, by simp⟩
            · have hoh2 : env.openHmacFails = false := by simpa using hoh
              simp only [hoh2, Bool.false_eq_true, if_false]
              unfold writeItemMetadataUnsafe
              by_cases hwm : env.writeMetaFails
              · simp only [hwm, if_true]
                exact ⟨⟨by simpa using hkey, by simpa using hid2, by simpa using hprim,
                  by simp, by simp [hitems]⟩, by simpa using hvals2, by simp, by simp⟩
              · have hwm2 : env.writeMetaFails = false := by simpa using hwm
                simp only [hwm2, Bool.false_eq_true, if_false, hm]
                refine ⟨⟨by simpa using hkey, ?_, by simpa using hprim, by simp, by simp⟩,
                  ?_, by simp, by simp⟩
                · simpa using hidb _ _ _ (by intro h; cases h) hid2
                · simpa using valuesDecryptable_write_nonvalue _ ident _ _ (hb2 item.id) hvals2

theorem readItemValueUnsafe_no_abort (v : Vault) (c : Crypto) (item : Item)
    (key : Bytes) (ident : Identity)
    (hcoh : ReencCoh v key ident) (hvals : ValuesDecryptable v.fs ident) :
    ∀ msg, (v.readItemValueUnsafe c item).res ≠ .abort msg := by
  obtain ⟨hkey, hid, hprim, _, _⟩ := hcoh
  intro msg
  unfold Vault.readItemValueUnsafe
  cases hlv : v.fs.lookup (VPath.value item.id) with
  | none => simp
  | some ct =>
      obtain ⟨recips, plain, hct, hmem⟩ := hvals item.id ct hlv
      subst hct
      have hdec : v.decryptFromRestUnsafe (Content.age recips plain) = .ok plain := by
        simp [Vault.decryptFromRestUnsafe, readIdentity, hkey, hid, hmem]
      simp only [hdec]
      by_cases hsum : c.sum plain = item.checksum <;> simp [hsum]

theorem reencryptItems_ok (c : Crypto) (perItem : UUID → WriteEnv) (key : Bytes)
    (ident : Identity) :
    ∀ (l : ItemMap) (v : Vault), ReencCoh v key ident → ValuesDecryptable v.fs ident →
      (reencryptItems c perItem v l).2 = .ok () ∧
      (reencryptItems c perItem v l).1.recoveryRecipient = v.recoveryRecipient := by
  intro l
  induction l with
  | nil =>
      intro v h1 h2
      exact ⟨rfl, rfl⟩
  | cons p rest ih =>
      intro v h1 h2
      obtain ⟨id0, item⟩ := p
      cases hr : (v.readItemValueUnsafe c item).res with
      | abort msg => exact absurd hr (readItemValueUnsafe_no_abort v c item key ident h1 h2 msg)
      | err m0 =>
          simp only [reencryptItems, hr]
          exact ih v h1 h2
      | ok value =>
          have hw := writeItemValueUnsafe_preserves v c (perItem item.id) item value key ident
            h1 h2
          cases hwr : v.writeItemValueUnsafe c (perItem item.id) item value with
          | mk v1 r =>
              rw [hwr] at hw
              cases r with
              | abort msg => exact absurd rfl (hw.2.2.2 msg)
              | ok u =>
                  simp only [reencryptItems, hr, hwr]
                  obtain ⟨hok, hrec⟩ := ih v1 hw.1 hw.2.1
                  exact ⟨hok, by rw [hrec]; exact hw.2.2.1⟩
              | err m0 =>
                  simp only [reencryptItems, hr, hwr]
                  obtain ⟨hok, hrec⟩ := ih v1 hw.1 hw.2.1
                  exact ⟨hok, by rw [hrec]; exact hw.2.2.1⟩

theorem jsonEntryOf_eq_none (c : Crypto) (e : VPath × Content) (p : VPath)
    (hp : ∀ i, p ≠ VPath.meta i) (he : e.1 = p) : jsonEntryOf c e = none := by
  obtain ⟨p1, c1⟩ := e
  cases p1 with
  | meta i => exact absurd he.symm (hp i)
  | identity => cases c1 <;> rfl
  | recovery => cases c1 <;> rfl
  | value j => cases c1 <;> rfl
  | backup j t => cases c1 <;> rfl

theorem filterMap_jsonEntry_filterKey (c : Crypto) (p : VPath) (hp : ∀ i, p ≠ VPath.meta i) :
    ∀ fs : FS, ((fs.filter (fun e => !(e.1 == p))).filterMap (jsonEntryOf c))
      = fs.filterMap (jsonEntryOf c) := by
  intro fs
  induction fs with
  | nil => rfl
  | cons e t ih =>
      by_cases hep : e.1 = p
      · have hcond : (!(e.1 == p)) = false := by simp [hep]
        have h1 : jsonEntryOf c e = none := jsonEntryOf_eq_none c e p hp hep
        simp only [List.filter_cons, hcond, Bool.false_eq_true, if_false,
          List.filterMap_cons, h1, ih]
      · have hcond : (!(e.1 == p)) = true := by simp [hep]
        simp only [List.filter_cons, hcond, if_true, List.filterMap_cons, ih]

theorem jsonEntriesFS_write_nonmeta (c : Crypto) (fs : FS) (p : VPath) (ct : Content)
    (hp : ∀ i, p ≠ VPath.meta i) :
    jsonEntriesFS c (fsWrite fs p ct) = jsonEntriesFS c fs := by
  unfold jsonEntriesFS fsWrite
  simp only [List.filterMap_cons, jsonEntryOf_eq_none c (p, ct) p hp rfl,
    filterMap_jsonEntry_filterKey c p hp fs]

theorem readAllMetadataGo_ok (c : Crypto) (secret : Bytes) :
    ∀ (l : List DirEntry) (acc : ItemMap),
      (∀ e ∈ l, e.isDir = false → hasJsonExt e.name = true → 32 ≤ e.data.length) →
      ∃ m, readAllMetadataGo c secret l acc = .ok m := by
  intro l
  induction l with
  | nil =>
      intro acc _
      exact ⟨acc, rfl⟩
  | cons e rest ih =>
      intro acc hlen
      have hlenr : ∀ x ∈ rest, x.isDir = false → hasJsonExt x.name = true →
          32 ≤ x.data.length := fun x hx => hlen x (List.mem_cons_of_mem e hx)
      by_cases hfil : (!e.isDir && hasJsonExt e.name) = true
      · have hsplit : e.isDir = false ∧ hasJsonExt e.name = true := by simpa using hfil
        have hlene : 32 ≤ e.data.length :=
          hlen e (List.mem_cons_self e rest) hsplit.1 hsplit.2
        cases hr : readItemMetadataUnsafe c secret e.name e.data with
        | abort m0 =>
            exact absurd hr (readItemMetadataUnsafe_not_abort c secret e.name hlene m0)
        | err m0 =>
            obtain ⟨m, hm⟩ := ih acc hlenr
            refine ⟨m, ?_⟩
            simp only [readAllMetadataGo, hfil, if_true, hr]
            exact hm
        | ok md =>
            obtain ⟨m, hm⟩ := ih (mapInsert acc md.id md) hlenr
            refine ⟨m, ?_⟩
            simp only [readAllMetadataGo, hfil, if_true, hr]
            exact hm
      · have hfil2 : (!e.isDir && hasJsonExt e.name) = false := by simpa using hfil
        obtain ⟨m, hm⟩ := ih acc hlenr
        refine ⟨m, ?_⟩
        simp only [readAllMetadataGo, hfil2, Bool.false_eq_true, if_false]
        exact hm

/-- Claim C8.  On an unlocked coherent vault: when writing the new
recovery recipient fails and a previous recipient exists, the previous
recipient is rewritten with up to three retries and the process aborts
exactly when all three attempts fail, while any successful retry turns the
call into an ordinary error; when the new recipient is written, the
metadata set is re-read and every item is re-encrypted, with per item read
or write errors skipped while the call still returns success and the new
recipient stays in place; and every re-encryption addresses the new
recipient set, primary plus new recovery recipient.  The one second pause
between retries is real time and outside the model. -/
theorem setRecoveryRecipient_spec (v : Vault) (c : Crypto) (env : RecoveryEnv)
    (recipient : Recipient) (key : Bytes) (ident : Identity)
    (hcoh : ReencCoh v key ident)
    (hvals : ValuesDecryptable v.fs ident)
    (hopen : env.openHmacFails = false) :
    (env.writeNewFails = true →
      (v.recoveryRecipient = none →
        v.SetRecoveryRecipient c env recipient
          = (v, .err "failed to set recovery recipient")) ∧
      (∀ prev, v.recoveryRecipient = some prev →
        ((env.restore1 || env.restore2 || env.restore3) = false →
          (v.SetRecoveryRecipient c env recipient).2
            = .abort "failed to restore previous recovery recipient") ∧
        ((env.restore1 || env.restore2 || env.restore3) = true →
          (v.SetRecoveryRecipient c env recipient).2
            = .err "failed to set recovery recipient"))) ∧
    (env.writeNewFails = false → env.readDirFails = false →
      (∀ e ∈ jsonEntriesFS c v.fs, 32 ≤ e.data.length) →
      (v.SetRecoveryRecipient c env recipient).2 = .ok () ∧
      (v.SetRecoveryRecipient c env recipient).1.recoveryRecipient = some recipient) ∧
    (∀ (w : Vault) (plain : Bytes), w.primaryRecipient = some (recipientOf ident) →
      w.recoveryRecipient = some recipient →
      w.encryptForRestUnsafe plain
        = .ok (Content.age [recipientOf ident, recipient] plain)) := by
  obtain ⟨hkey, hid, hprim, hsec, hitems⟩ := hcoh
  obtain ⟨s, hs⟩ := Option.isSome_iff_exists.mp hsec
  have hlock : v.IsLocked = false := by simp [Vault.IsLocked, hkey]
  refine ⟨?_, ?_, ?_⟩
  · intro hw
    constructor
    · intro hrec
      simp [Vault.SetRecoveryRecipient, hlock, hs, hopen, hw, hrec]
    · intro prev hrec
      constructor
      · intro hres
        simp [Vault.SetRecoveryRecipient, hlock, hs, hopen, hw, hrec, hres]
      · intro hres
        simp [Vault.SetRecoveryRecipient, hlock, hs, hopen, hw, hrec, hres]
  · intro hw hrd hlen32
    have hnm : ∀ i : UUID, VPath.recovery ≠ VPath.meta i := by
      intro i h
      cases h
    have hje : jsonEntriesFS c (fsWrite v.fs VPath.recovery (Content.recipientText recipient))
        = jsonEntriesFS c v.fs :=
      jsonEntriesFS_write_nonmeta c v.fs VPath.recovery (Content.recipientText recipient) hnm
    obtain ⟨items, hgo⟩ := readAllMetadataGo_ok c s (jsonEntriesFS c v.fs) []
      (fun e he _ _ => hlen32 e he)
    have hra : readAllMetadataFS c s env.readDirFails
        (fsWrite v.fs VPath.recovery (Content.recipientText recipient)) = .ok items := by
      unfold readAllMetadataFS
      rw [if_neg (by simp [hrd]), hje]
      exact hgo
    have hcoh1 : ReencCoh
        { v with
            fs := fsWrite v.fs VPath.recovery (Content.recipientText recipient)
            metadataHmacSecret := some s
            recoveryRecipient := some recipient } key ident := by
      refine ⟨by simpa using hkey, ?_, by simpa using hprim, by simp,
        by simp [hitems]⟩
      show (fsWrite v.fs VPath.recovery (Content.recipientText recipient)).lookup
        VPath.identity = some (Content.identityEnc key ident)
      rw [fsWrite_lookup, if_neg (by intro h; cases h)]
      exact hid
    have hvals1 : ValuesDecryptable
        (fsWrite v.fs VPath.recovery (Content.recipientText recipient)) ident := by
      refine valuesDecryptable_write_nonvalue v.fs ident _ _ ?_ hvals
      intro i h
      cases h
    have hloop := reencryptItems_ok c env.perItem key ident items
      { v with
          fs := fsWrite v.fs VPath.recovery (Content.recipientText recipient)
          metadataHmacSecret := some s
          recoveryRecipient := some recipient } hcoh1 (by simpa using hvals1)
    constructor
    · simp only [Vault.SetRecoveryRecipient, hlock, Bool.false_eq_true, if_false, hs,
        hopen, hw, hra]
      exact hloop.1
    · simp only [Vault.SetRecoveryRecipient, hlock, Bool.false_eq_true, if_false, hs,
        hopen, hw, hra]
      rw [hloop.2]
  · intro w plain h1 h2
    simp [Vault.encryptForRestUnsafe, h1, h2]

/-- Witness for claim C3 at a concrete input: create, store one byte,
read it back. -/
theorem create_set_get_roundtrip_witness :
    (vEmptyTable.identityKey = some [2] ∧ ([1] : Bytes) ≠ [] ∧ testCrypto.sum [1] ≠ "") ∧
    (((vEmptyTable.CreateItem testCrypto cEnvOk "db").1.SetItemValue testCrypto wEnvOk 6
      [1]).1.GetItem testCrypto 6).res = .ok (some [1]) :=
  ⟨⟨rfl, by decide, by decide⟩,
    (create_set_get_roundtrip vEmptyTable testCrypto cEnvOk wEnvOk "db" [1] [2] 7 [] [8]
      rfl (by decide) rfl rfl rfl (by decide) (by decide) rfl rfl rfl rfl rfl).2.2⟩

theorem valuesDecryptable_vRotate : ValuesDecryptable vRotate.fs 7 := by
  intro i ct h
  by_cases hi : i = 5
  · subst hi
    have h5 : List.lookup (VPath.value 5) vRotate.fs
        = some (Content.age [recipientOf 7] [1, 2]) := by decide
    have h6 := h5.symm.trans h
    injection h6 with h7
    exact ⟨[recipientOf 7], [1, 2], h7.symm, by decide⟩
  · have h1 : (VPath.value i == VPath.identity) = false := by simp
    have h2 : (VPath.value i == VPath.meta 5) = false := by simp
    have h3 : (VPath.value i == VPath.value 5) = false := by simp [hi]
    simp only [vRotate, List.lookup, h1, h2, h3] at h
    exact Option.noConfusion h

/-- Witness for claim C8 at a concrete input: rotating the recovery
recipient on a vault with one stored item succeeds and re-encrypts the
value to the new recipient set. -/
theorem setRecoveryRecipient_spec_witness :
    (ReencCoh vRotate [2] 7 ∧ recEnvOk.openHmacFails = false ∧
      recEnvOk.writeNewFails = false ∧ recEnvOk.readDirFails = false ∧
      (∀ e ∈ jsonEntriesFS testCrypto vRotate.fs, 32 ≤ e.data.length)) ∧
    ((vRotate.SetRecoveryRecipient testCrypto recEnvOk 3).2 = .ok () ∧
      (vRotate.SetRecoveryRecipient testCrypto recEnvOk 3).1.recoveryRecipient = some 3) :=
  ⟨⟨⟨rfl, by decide, rfl, rfl, rfl⟩, rfl, rfl, rfl, by decide⟩,
    (setRecoveryRecipient_spec vRotate testCrypto recEnvOk 3 [2] 7
      ⟨rfl, by decide, rfl, rfl, rfl⟩ valuesDecryptable_vRotate rfl).2.1 rfl rfl (by decide)⟩
